import Mathlib

/-
Verification development for the diagnostics view of `crates/diagnostics`
(`buffer_diagnostics.rs` and `toolbar_controls.rs`).

The file shallowly embeds the data model and the coordination logic of
`BufferDiagnosticsEditor`: the change detector, the debounced refresh
scheduler, the cargo-diagnostics fetch coordinator, the group filter and
ordered insertion of `update_excerpts`, the empty-state rendering, the tab
summary, and the `DiagnosticsEditor` trait implementation. Theorems then
settle the specification's claims about this code.

Conventions of the embedding:
- machine integers (`usize`, offsets, counts) are `Nat`;
- severities use the LSP numeric encoding of `lsp::DiagnosticSeverity`
  as the code compares them: 1 = Error, 2 = Warning, 3 = Information,
  4 = Hint; a smaller number is a more severe diagnostic;
- a `text::Anchor` is an opaque token, and a `BufferSnapshot` carries the
  resolution function `to_offset` mapping an anchor to an absolute offset
  (distinct anchors may resolve to the same offset, as in the source);
- gpui `Task` handles are identified by creation order (`Nat` ids); a
  droppable/replaceable stored handle is an `Option Nat`.
-/

namespace BufferDiagnostics

/-- A half-open position range `start..end`; the Rust field `end` is named
`stop` here because `end` is a Lean keyword. -/
structure Range (α : Type) where
  start : α
  stop : α
  deriving DecidableEq, Repr

/-- An opaque `text::Anchor`: a buffer position token whose absolute offset
is only meaningful relative to a snapshot. -/
structure Anchor where
  id : Nat
  deriving DecidableEq, Repr

/-- A `text::BufferSnapshot`, abstracted to the single capability the
embedded code uses: resolving an anchor to an absolute offset
(`OffsetRangeExt::to_offset`). -/
structure BufferSnapshot where
  to_offset : Anchor → Nat

/-- The fields of `language::Diagnostic` that `buffer_diagnostics.rs`
reads: `message`, `severity` (LSP numeric encoding), `is_primary`,
`group_id`. -/
structure Diagnostic where
  message : String
  severity : Nat
  is_primary : Bool
  group_id : Nat
  deriving DecidableEq, Repr

/-- Embedding of `language::DiagnosticEntry<T>`: a diagnostic together with the range it
covers. -/
structure DiagnosticEntry (α : Type) where
  range : Range α
  diagnostic : Diagnostic
  deriving DecidableEq, Repr

/-- Embedding of `Range::<Anchor>::to_offset(snapshot)`: resolve both endpoints of an
anchor range to absolute offsets against a snapshot. -/
def range_to_offset (r : Range Anchor) (snapshot : BufferSnapshot) : Range Nat :=
  ⟨snapshot.to_offset r.start, snapshot.to_offset r.stop⟩

/-- The per-pair comparison inside `diagnostics_are_unchanged` (lines
738-746): the closure passed to `.all`, comparing message, severity,
`is_primary`, and the ranges resolved to offsets against the snapshot. -/
def entry_unchanged (snapshot : BufferSnapshot)
    (existing new_entry : DiagnosticEntry Anchor) : Bool :=
  existing.diagnostic.message == new_entry.diagnostic.message &&
  existing.diagnostic.severity == new_entry.diagnostic.severity &&
  existing.diagnostic.is_primary == new_entry.diagnostic.is_primary &&
  decide (range_to_offset existing.range snapshot =
    range_to_offset new_entry.range snapshot)

/-- Embedding of `BufferDiagnosticsEditor::diagnostics_are_unchanged` (lines 729-747):
`false` when the stored list and the new list differ in length, otherwise
the pairwise comparison of the zipped lists. `stored` stands for
`self.diagnostics`. -/
def diagnostics_are_unchanged (stored new_diagnostics : List (DiagnosticEntry Anchor))
    (snapshot : BufferSnapshot) : Bool :=
  if stored.length ≠ new_diagnostics.length then
    false
  else
    (stored.zip new_diagnostics).all fun p => entry_unchanged snapshot p.1 p.2

/-- Embedding of `project::DiagnosticSummary`: the error/warning counts shown in the
tab. -/
structure DiagnosticSummary where
  error_count : Nat
  warning_count : Nat
  deriving DecidableEq, Repr

/-- Embedding of `language::BufferId`, an opaque buffer identifier. -/
structure BufferId where
  id : Nat
  deriving DecidableEq, Repr

/-- The mutable state of a `BufferDiagnosticsEditor` that the embedded
coordination functions touch (lines 85-119). Task handles are `Option Nat`
ids; `next_task_id` / `next_summary_task_id` number the tasks spawned for
excerpt refreshes and summary updates in creation order;
`executed_refreshes` records, in execution order, the ids of refresh tasks
whose `update_excerpts` actually ran; `displayed_blocks` abstracts the
block/excerpt content currently shown by the editor. -/
structure EditorState where
  diagnostics : List (DiagnosticEntry Anchor) := []
  summary : DiagnosticSummary := ⟨0, 0⟩
  include_warnings : Bool := true
  update_excerpts_task : Option Nat := none
  next_task_id : Nat := 0
  summary_task : Option Nat := none
  next_summary_task_id : Nat := 0
  executed_refreshes : List Nat := []
  displayed_blocks : List Nat := []
  deriving DecidableEq, Repr

/-- Embedding of `BufferDiagnosticsEditor::update_stale_excerpts` (lines 444-481), the
synchronous part: if `update_excerpts_task` is already `Some`, return
early and leave the pending task in place; otherwise store a newly spawned
task handle. The spawned task itself is modeled by `fire_refresh`. -/
def update_stale_excerpts (s : EditorState) : EditorState :=
  if s.update_excerpts_task.isSome then
    s
  else
    { s with
      update_excerpts_task := some s.next_task_id
      next_task_id := s.next_task_id + 1 }

/-- Embedding of `BufferDiagnosticsEditor::update_all_excerpts` (lines 492-494): simply
delegates to `update_stale_excerpts`. -/
def update_all_excerpts (s : EditorState) : EditorState :=
  update_stale_excerpts s

/-- Embedding of `BufferDiagnosticsEditor::update_diagnostic_summary` (lines 352-356):
overwrite `self.summary` with the summary the project reports for the
path (`project.diagnostic_summary_for_path(&self.project_path, false, cx)`,
an external collaborator, modeled as the argument `project_summary`). -/
def update_diagnostic_summary (project_summary : DiagnosticSummary)
    (s : EditorState) : EditorState :=
  { s with summary := project_summary }

/-- The `Event::DiagnosticsUpdated` arm of the project-event subscription in
`BufferDiagnosticsEditor::new` (lines 143-172). If the event's path matches
`self.project_path` (`path_matches`), a fresh summary-update task replaces
(and thereby cancels) the previous `diagnostic_summary_task`; then, if the
editor or the view holds focus (`is_focused`, from
`contains_focused`), only a log line is emitted, otherwise
`update_stale_excerpts` runs. -/
def handle_diagnostics_updated (path_matches is_focused : Bool)
    (s : EditorState) : EditorState :=
  if path_matches then
    let s1 := { s with
      summary_task := some s.next_summary_task_id
      next_summary_task_id := s.next_summary_task_id + 1 }
    if is_focused then s1 else update_stale_excerpts s1
  else
    s

/-- The body of the task spawned by `update_stale_excerpts` (lines
454-480), run when its debounce timer fires: open the buffer; on failure
(`log_err` yields `None`) the task just logs and finishes, touching
nothing — in particular it does NOT clear `update_excerpts_task`; on
success it runs `update_excerpts` (which replaces the stored diagnostics
and the displayed blocks with data read at execution time) and then sets
`update_excerpts_task = None`. -/
def fire_refresh (open_ok : Bool) (new_diagnostics : List (DiagnosticEntry Anchor))
    (new_blocks : List Nat) (s : EditorState) : EditorState :=
  match s.update_excerpts_task with
  | none => s
  | some id =>
    if open_ok then
      { s with
        diagnostics := new_diagnostics
        displayed_blocks := new_blocks
        executed_refreshes := s.executed_refreshes ++ [id]
        update_excerpts_task := none }
    else
      s

/-- The summary task spawned in the `DiagnosticsUpdated` handler (lines
152-163), run when its timer fires: call `update_diagnostic_summary`. A
task whose handle was replaced was dropped (cancelled) and never runs, so
this only applies to the currently stored `summary_task`. -/
def fire_summary (project_summary : DiagnosticSummary) (s : EditorState) : EditorState :=
  match s.summary_task with
  | none => s
  | some _ => update_diagnostic_summary project_summary s

/-- Embedding of `BufferDiagnosticsEditor::focus_out` (lines 758-763): when neither the
view's focus handle nor the embedded editor's is focused any more, run
`update_all_excerpts`. -/
def focus_out (self_focused editor_focused : Bool) (s : EditorState) : EditorState :=
  if !self_focused && !editor_focused then
    update_all_excerpts s
  else
    s

/-- The `EditorEvent::Blurred` arm of the editor-event subscription in
`BufferDiagnosticsEditor::new` (lines 252-254): run
`update_stale_excerpts`. -/
def handle_editor_blurred (s : EditorState) : EditorState :=
  update_stale_excerpts s

/-- The state a fresh `BufferDiagnosticsEditor` starts from (lines
261-279): empty diagnostics, no pending tasks, summary as reported by the
project, `include_warnings` from the deploy-time setting. -/
def initial_state (project_summary : DiagnosticSummary)
    (include_warnings : Bool) : EditorState :=
  { summary := project_summary, include_warnings := include_warnings }

/-- Embedding of `DiagnosticsEditor::get_diagnostics_for_buffer` for
`BufferDiagnosticsEditor` (lines 778-787): clones `self.diagnostics`; the
`buffer_id` argument is unused. -/
def get_diagnostics_for_buffer (s : EditorState) (_buffer_id : BufferId) :
    List (DiagnosticEntry Anchor) :=
  s.diagnostics

/-- The parts of the tab built by `Item::tab_content` (lines 810-842) that
depend on the diagnostics state: a check icon when both counts are zero,
an error icon with the error count rendered as text when `error_count > 0`,
and a warning icon with the warning count when `warning_count > 0`. Both
counts are read directly from `self.summary`. -/
structure TabContent where
  shows_check : Bool
  error_label : Option String
  warning_label : Option String
  deriving DecidableEq, Repr

/-- Embedding of `Item::tab_content` (lines 810-842), restricted to its
diagnostics-dependent output. -/
def tab_content (s : EditorState) : TabContent :=
  let error_count := s.summary.error_count
  let warning_count := s.summary.warning_count
  { shows_check := error_count == 0 && warning_count == 0
    error_label := if error_count > 0 then some (toString error_count) else none
    warning_label := if warning_count > 0 then some (toString warning_count) else none }

/-- The empty-state pane built by `Render::render` (lines 883-916): its
label and, when present, the text of the "Show N warnings" button. -/
structure EmptyStateView where
  label : String
  warnings_button : Option String
  deriving DecidableEq, Repr

/-- The output of `Render::render` (lines 873-927): either the empty-state
pane or the embedded editor. -/
inductive RenderedView where
  | empty_state (v : EmptyStateView)
  | editor_view
  deriving DecidableEq, Repr

/-- Embedding of `Render::render` (lines 873-927): `warning_count` is the summary's
warning count only when warnings are included, else `0`; when
`error_count + warning_count == 0` the empty-state pane is rendered, whose
label matches on the (filtered) `warning_count` and whose "Show N
warnings" button appears when the unfiltered `self.summary.warning_count`
is positive; otherwise the editor is rendered. -/
def render (filename : String) (s : EditorState) : RenderedView :=
  let error_count := s.summary.error_count
  let warning_count :=
    match s.include_warnings with
    | true => s.summary.warning_count
    | false => 0
  if error_count + warning_count == 0 then
    let label :=
      match warning_count with
      | 0 => "No problems in " ++ filename
      | _ => "No errors in " ++ filename
    RenderedView.empty_state
      { label := label
        warnings_button :=
          if s.summary.warning_count > 0 then
            some (match s.summary.warning_count with
              | 1 => "Show 1 warning"
              | n => "Show " ++ toString n ++ " warnings")
          else
            none }
  else
    RenderedView.editor_view

/-- The state after a first `DiagnosticsUpdated` notification (N1) for the
view's path arrives while the view is unfocused and no refresh is pending:
a refresh task (id 0) is scheduled. -/
def after_n1 : EditorState :=
  handle_diagnostics_updated true false (initial_state ⟨1, 0⟩ true)

/-- The state after a second notification (N2) for the same path arrives
before N1's refresh timer has fired. -/
def after_n2 : EditorState :=
  handle_diagnostics_updated true false after_n1

/-- The state reached when a scheduled excerpt refresh's timer fires and
opening the buffer fails: the task logs the error and finishes without
running `update_excerpts` and without clearing `update_excerpts_task`
(only the success branch at lines 473-476 clears it). -/
def after_open_failure : EditorState :=
  fire_refresh false [] [] (update_stale_excerpts (initial_state ⟨1, 0⟩ true))

/-- Embedding of `project::ProjectPath`, abstracted to an identifier for a source
file. -/
structure ProjectPath where
  path : String
  deriving DecidableEq, Repr

/-- Embedding of `CargoDiagnosticsFetchState` (declared in the crate root `diagnostics`
module; only its three fields are used here, as at lines 393-419): the
running fetch task handle, the running cancel task handle, and the tracked
diagnostic sources. -/
structure CargoDiagnosticsFetchState where
  fetch_task : Option Nat := none
  cancel_task : Option Nat := none
  diagnostic_sources : List ProjectPath := []
  deriving DecidableEq, Repr

/-- The fetch coordinator's runtime view: the stored
`CargoDiagnosticsFetchState` plus the per-source `run_flycheck` operations
spawned by the current fetch task that have not yet completed. -/
structure FetchModel where
  state : CargoDiagnosticsFetchState
  pending_ops : List ProjectPath
  deriving DecidableEq, Repr

/-- Embedding of `BufferDiagnosticsEditor::fetch_cargo_diagnostics` (lines 387-420):
clear both handles, store the sources, and return early when the source
set is empty (no operation spawned, `fetch_task` left `None`); otherwise
spawn the fetch task (handle id 0), which launches one `run_flycheck`
operation per source — these become the pending operations. -/
def fetch_cargo_diagnostics (diagnostics_sources : List ProjectPath)
    (prev : CargoDiagnosticsFetchState) : FetchModel :=
  let st1 : CargoDiagnosticsFetchState :=
    { prev with
      cancel_task := none
      fetch_task := none
      diagnostic_sources := diagnostics_sources }
  if st1.diagnostic_sources.isEmpty then
    { state := st1, pending_ops := [] }
  else
    { state := { st1 with fetch_task := some 0 }, pending_ops := diagnostics_sources }

/-- One `run_flycheck` operation completing, successfully or not. The
result is discarded (`let _ = join_all(fetch_tasks).await`, line 413), so
failures are absorbed; when the last pending operation completes,
`join_all` returns and the fetch task's continuation clears `fetch_task`
(lines 414-418). -/
def complete_flycheck (source : ProjectPath) (_ok : Bool) (m : FetchModel) : FetchModel :=
  let remaining := m.pending_ops.erase source
  { state :=
      { m.state with
        fetch_task := if remaining.isEmpty then none else m.state.fetch_task }
    pending_ops := remaining }

/-- Run a sequence of operation completions, in the given order. -/
def run_completions (completions : List (ProjectPath × Bool)) (m : FetchModel) : FetchModel :=
  completions.foldl (fun acc c => complete_flycheck c.1 c.2 acc) m

/-- Erase the elements of `to_remove` from `pending`, one occurrence
each, in order. -/
def erase_all (to_remove pending : List ProjectPath) : List ProjectPath :=
  to_remove.foldl (fun acc a => acc.erase a) pending

/-- The relation the fetch task maintains between its stored handle and
its pending operations: the handle is cleared exactly when no operation is
pending any more. -/
def fetch_invariant (m : FetchModel) : Prop :=
  m.state.fetch_task = if m.pending_ops.isEmpty then none else some 0

/-- Embedding of `language::Point`: a row/column buffer position. -/
structure Point where
  row : Nat
  column : Nat
  deriving DecidableEq, Repr

/-- Embedding of `project::project_settings::DiagnosticSeverity`, restricted to the two
values `max_diagnostics_severity` produces. -/
inductive DiagnosticSeverity where
  | error
  | warning
  deriving DecidableEq, Repr

/-- Embedding of `BufferDiagnosticsEditor::max_diagnostics_severity` (lines 769-774). -/
def max_diagnostics_severity (include_warnings : Bool) : DiagnosticSeverity :=
  match include_warnings with
  | true => DiagnosticSeverity.warning
  | false => DiagnosticSeverity.error

/-- Embedding of `DiagnosticSeverity::into_lsp(..).unwrap_or(lsp::DiagnosticSeverity::WARNING)`
(lines 507-509) for the two values `max_diagnostics_severity` produces,
in the LSP numeric encoding (Error = 1, Warning = 2). -/
def into_lsp (s : DiagnosticSeverity) : Nat :=
  match s with
  | DiagnosticSeverity.error => 1
  | DiagnosticSeverity.warning => 2

/-- The group filter of `update_excerpts` (lines 549-560): a group is
skipped (`continue`) when the minimum severity of its entries does not
exist (no entries) or is greater — that is, less severe — than
`max_severity`:
`group.iter().map(|d| d.diagnostic.severity).min().is_none_or(|severity| severity > max_severity)`. -/
def skip_group (max_severity : Nat) (group : List (DiagnosticEntry Point)) : Bool :=
  match (group.map fun d => d.diagnostic.severity).min? with
  | none => true
  | some m => decide (m > max_severity)

/-- The groups `update_excerpts` keeps: those the filter does not skip. -/
def retained_groups (max_severity : Nat)
    (groups : List (List (DiagnosticEntry Point))) :
    List (List (DiagnosticEntry Point)) :=
  groups.filter fun group => !skip_group max_severity group

/-- A diagnostic group whose single entry is an error (minimum severity
Error = 1). -/
def error_group_one : List (DiagnosticEntry Point) :=
  [⟨⟨⟨10, 0⟩, ⟨12, 0⟩⟩, ⟨"mismatched types", 1, true, 0⟩⟩]

/-- A diagnostic group whose single entry is a warning (minimum severity
Warning = 2). -/
def warning_group : List (DiagnosticEntry Point) :=
  [⟨⟨⟨20, 0⟩, ⟨20, 8⟩⟩, ⟨"unused variable", 2, true, 1⟩⟩]

/-- A diagnostic group with an error and an informational note (minimum
severity Error = 1). -/
def error_group_two : List (DiagnosticEntry Point) :=
  [⟨⟨⟨30, 0⟩, ⟨31, 0⟩⟩, ⟨"borrowed value does not live long enough", 1, true, 2⟩⟩,
   ⟨⟨⟨28, 0⟩, ⟨28, 4⟩⟩, ⟨"borrow later used here", 3, false, 2⟩⟩]

/-- Comparison of `language::Point`s, as the `Ord` instance the `.cmp`
calls at lines 575-587 and 612-627 resolve to: by row, then by column. -/
def point_cmp (a b : Point) : Ordering :=
  (compare a.row b.row).then (compare a.column b.column)

/-- Embedding of `diagnostic_renderer::DiagnosticBlock`, restricted to the field this
code reads (`initial_range`), plus an opaque payload standing for the
block's rendering content so that blocks with identical ranges stay
distinguishable and their final order is observable. -/
structure DiagnosticBlock where
  initial_range : Range Point
  payload : Nat
  deriving DecidableEq, Repr

instance : Inhabited DiagnosticBlock :=
  ⟨⟨⟨⟨0, 0⟩, ⟨0, 0⟩⟩, 0⟩⟩

/-- Embedding of `editor::ExcerptRange<Point>`: a wider context range around the
diagnostic's own primary range. -/
structure ExcerptRange where
  context : Range Point
  primary : Range Point
  deriving DecidableEq, Repr

instance : Inhabited ExcerptRange :=
  ⟨⟨⟨⟨0, 0⟩, ⟨0, 0⟩⟩, ⟨⟨0, 0⟩, ⟨0, 0⟩⟩⟩⟩

/-- The comparator of the block insertion (lines 575-587), comparing a
probe already in the vector against the block being inserted:
`probe.initial_range.start.cmp(..).then(probe.initial_range.end.cmp(..)).then(Ordering::Greater)`. -/
def block_probe_cmp (probe b : DiagnosticBlock) : Ordering :=
  ((point_cmp probe.initial_range.start b.initial_range.start).then
    (point_cmp probe.initial_range.stop b.initial_range.stop)).then Ordering.gt

/-- The comparator of the excerpt-range insertion (lines 612-627): by
`context.start`, `context.end`, `primary.start`, `primary.end`, then
`Ordering::Greater`; the inserted excerpt's `primary` is the block's
`initial_range`. -/
def excerpt_probe_cmp (probe target : ExcerptRange) : Ordering :=
  ((((point_cmp probe.context.start target.context.start).then
    (point_cmp probe.context.stop target.context.stop)).then
    (point_cmp probe.primary.start target.primary.start)).then
    (point_cmp probe.primary.stop target.primary.stop)).then Ordering.gt

/-- Rust `slice::binary_search_by` as the standard library implements it:
keep a `left..right` window, probe its midpoint, narrow to the upper half
on `Less` and to the lower half on `Greater`, return `Ok` on `Equal`, and
`Err(left)` — the insertion point — once the window is empty. The `fuel`
argument only drives the structural recursion; `fuel = l.length` (what
`binary_search_by` passes) always suffices because every step strictly
shrinks the window. -/
def binary_search_go (f : α → Ordering) (l : List α) (d : α) :
    Nat → Nat → Nat → Except Nat Nat
  | 0, left, _ => Except.error left
  | fuel + 1, left, right =>
    if left < right then
      match f (l.getD (left + (right - left) / 2) d) with
      | Ordering.lt => binary_search_go f l d fuel (left + (right - left) / 2 + 1) right
      | Ordering.gt => binary_search_go f l d fuel left (left + (right - left) / 2)
      | Ordering.eq => Except.ok (left + (right - left) / 2)
    else
      Except.error left

/-- Embedding of `slice::binary_search_by` over the whole vector. -/
def binary_search_by (f : α → Ordering) (l : List α) (d : α) : Except Nat Nat :=
  binary_search_go f l d l.length 0 l.length

/-- Embedding of `.binary_search_by(..).unwrap_or_else(|index| index)` (lines 588 and
628): the found index or the insertion point. -/
def search_index (f : α → Ordering) (l : List α) (d : α) : Nat :=
  match binary_search_by f l d with
  | Except.ok i => i
  | Except.error i => i

/-- Embedding of `Vec::insert(index, element)`: insert before the element previously at
`index`. -/
def insert_at : List α → Nat → α → List α
  | l, 0, x => x :: l
  | [], _ + 1, x => [x]
  | a :: t, i + 1, x => a :: insert_at t i x

/-- One step of the block-insertion loop of `update_excerpts` (lines
573-591). -/
def insert_block (blocks : List DiagnosticBlock) (b : DiagnosticBlock) :
    List DiagnosticBlock :=
  insert_at blocks (search_index (fun probe => block_probe_cmp probe b) blocks default) b

/-- One step of the excerpt-range insertion loop of `update_excerpts`
(lines 599-637). -/
def insert_excerpt (ranges : List ExcerptRange) (e : ExcerptRange) :
    List ExcerptRange :=
  insert_at ranges (search_index (fun probe => excerpt_probe_cmp probe e) ranges default) e

/-- The strict order `point_cmp` decides: lexicographic on
(row, column). -/
def point_lt (a b : Point) : Prop :=
  a.row < b.row ∨ (a.row = b.row ∧ a.column < b.column)

/-- The strict order on block sort keys: lexicographic on
(initial_range.start, initial_range.end). -/
def range_lt (a b : Range Point) : Prop :=
  point_lt a.start b.start ∨ (a.start = b.start ∧ point_lt a.stop b.stop)

/-- The strict order on excerpt sort keys: lexicographic on
(context.start, context.end, primary.start, primary.end). -/
def excerpt_lt (a b : ExcerptRange) : Prop :=
  range_lt a.context b.context ∨ (a.context = b.context ∧ range_lt a.primary b.primary)

/-- Nondecreasing-by-key between blocks: the second block's key is not
strictly below the first one's. -/
def block_le (a b : DiagnosticBlock) : Prop :=
  ¬ range_lt b.initial_range a.initial_range

/-- Nondecreasing-by-key between excerpt ranges. -/
def excerpt_le (a b : ExcerptRange) : Prop :=
  ¬ excerpt_lt b a

/-- A diagnostic block at rows 5..5. -/
def block_one : DiagnosticBlock := ⟨⟨⟨5, 0⟩, ⟨5, 9⟩⟩, 1⟩

/-- A second diagnostic block with exactly the same range as `block_one`
but different content. -/
def block_two : DiagnosticBlock := ⟨⟨⟨5, 0⟩, ⟨5, 9⟩⟩, 2⟩

/-- An excerpt range around rows 4..6. -/
def excerpt_one : ExcerptRange := ⟨⟨⟨4, 0⟩, ⟨6, 0⟩⟩, ⟨⟨5, 0⟩, ⟨5, 9⟩⟩⟩

/-- A second excerpt range equal to `excerpt_one`. -/
def excerpt_two : ExcerptRange := ⟨⟨⟨4, 0⟩, ⟨6, 0⟩⟩, ⟨⟨5, 0⟩, ⟨5, 9⟩⟩⟩

theorem entry_unchanged_iff (snapshot : BufferSnapshot)
    (e n : DiagnosticEntry Anchor) :
    entry_unchanged snapshot e n = true ↔
      e.diagnostic.message = n.diagnostic.message ∧
      e.diagnostic.severity = n.diagnostic.severity ∧
      e.diagnostic.is_primary = n.diagnostic.is_primary ∧
      range_to_offset e.range snapshot = range_to_offset n.range snapshot := by
  simp [entry_unchanged, Bool.and_assoc]

theorem diagnostics_are_unchanged_nil_cons (snapshot : BufferSnapshot)
    (b : DiagnosticEntry Anchor) (n : List (DiagnosticEntry Anchor)) :
    diagnostics_are_unchanged [] (b :: n) snapshot = false := by
  simp [diagnostics_are_unchanged]

theorem diagnostics_are_unchanged_cons_nil (snapshot : BufferSnapshot)
    (a : DiagnosticEntry Anchor) (s : List (DiagnosticEntry Anchor)) :
    diagnostics_are_unchanged (a :: s) [] snapshot = false := by
  simp [diagnostics_are_unchanged]

theorem diagnostics_are_unchanged_cons (snapshot : BufferSnapshot)
    (a b : DiagnosticEntry Anchor) (s n : List (DiagnosticEntry Anchor)) :
    diagnostics_are_unchanged (a :: s) (b :: n) snapshot =
      (entry_unchanged snapshot a b && diagnostics_are_unchanged s n snapshot) := by
  by_cases h : s.length = n.length
  · simp [diagnostics_are_unchanged, h]
  · simp [diagnostics_are_unchanged, h, Nat.succ_inj]

/-- C1: the change detector `diagnostics_are_unchanged` reports "unchanged"
(`true`) exactly when the stored list and the new list have equal length
and, pairwise in list order, each pair agrees on message, severity,
`is_primary`, and on the range resolved to absolute offsets against the
current buffer snapshot; any mismatch in a field or in length yields
"changed" (`false`). -/
theorem C1_diagnostics_are_unchanged_iff
    (stored new_diagnostics : List (DiagnosticEntry Anchor))
    (snapshot : BufferSnapshot) :
    diagnostics_are_unchanged stored new_diagnostics snapshot = true ↔
      stored.length = new_diagnostics.length ∧
      ∀ i : Nat, ∀ h1 : i < stored.length, ∀ h2 : i < new_diagnostics.length,
        (stored.get ⟨i, h1⟩).diagnostic.message =
          (new_diagnostics.get ⟨i, h2⟩).diagnostic.message ∧
        (stored.get ⟨i, h1⟩).diagnostic.severity =
          (new_diagnostics.get ⟨i, h2⟩).diagnostic.severity ∧
        (stored.get ⟨i, h1⟩).diagnostic.is_primary =
          (new_diagnostics.get ⟨i, h2⟩).diagnostic.is_primary ∧
        range_to_offset (stored.get ⟨i, h1⟩).range snapshot =
          range_to_offset (new_diagnostics.get ⟨i, h2⟩).range snapshot := by
  induction stored generalizing new_diagnostics with
  | nil =>
    cases new_diagnostics with
    | nil => simp [diagnostics_are_unchanged]
    | cons b n => simp [diagnostics_are_unchanged_nil_cons]
  | cons a s ih =>
    cases new_diagnostics with
    | nil => simp [diagnostics_are_unchanged_cons_nil]
    | cons b n =>
      rw [diagnostics_are_unchanged_cons]
      constructor
      · intro h
        rcases (Bool.and_eq_true _ _).mp h with ⟨hab, hrest⟩
        rcases (ih n).mp hrest with ⟨hlen, hall⟩
        refine ⟨by simpa using hlen, ?_⟩
        intro i h1 h2
        cases i with
        | zero => simpa using (entry_unchanged_iff snapshot a b).mp hab
        | succ j =>
          exact hall j (Nat.lt_of_succ_lt_succ h1) (Nat.lt_of_succ_lt_succ h2)
      · intro h
        rcases h with ⟨hlen, hall⟩
        have hab : entry_unchanged snapshot a b = true := by
          exact (entry_unchanged_iff snapshot a b).mpr
            (by simpa using hall 0 (Nat.succ_pos _) (Nat.succ_pos _))
        have hrest : diagnostics_are_unchanged s n snapshot = true := by
          refine (ih n).mpr ⟨by simpa using hlen, ?_⟩
          intro j hj1 hj2
          simpa using hall (j + 1) (Nat.succ_lt_succ hj1) (Nat.succ_lt_succ hj2)
        simp [hab, hrest]

/-- C10: `get_diagnostics_for_buffer` returns the view's entire stored
diagnostic list unchanged for every `buffer_id` argument: the parameter is
ignored, so two calls with different buffer ids return the same list,
namely `s.diagnostics`. -/
theorem C10_get_diagnostics_ignores_buffer_id (s : EditorState)
    (id1 id2 : BufferId) :
    get_diagnostics_for_buffer s id1 = s.diagnostics ∧
    get_diagnostics_for_buffer s id1 = get_diagnostics_for_buffer s id2 := by
  exact ⟨rfl, rfl⟩

/-- C9: the tab summary is computed from the project's reported summary
independently of the active severity filter: `update_diagnostic_summary`
stores the project summary as-is and `tab_content` reads it unfiltered, so
the tab is the same whatever `include_warnings` is; in particular, with one
error and one warning under an errors-only filter the tab still shows
error count 1 and warning count 1. -/
theorem C9_tab_summary_ignores_filter (s : EditorState) (b : Bool)
    (ps : DiagnosticSummary) :
    tab_content (update_diagnostic_summary ps { s with include_warnings := b }) =
      tab_content (update_diagnostic_summary ps s) ∧
    tab_content (update_diagnostic_summary ⟨1, 1⟩
        { s with include_warnings := false }) =
      { shows_check := false, error_label := some "1", warning_label := some "1" } := by
  refine ⟨rfl, ?_⟩
  simp only [tab_content, update_diagnostic_summary]
  rfl

/-- C8 (failing input): with warnings excluded and a summary of zero errors
and three warnings, `render` produces the label "No problems in main.rs" —
exactly the label of the no-diagnostics-at-all state, because the label
matches on the already-filtered warning count, which is always zero inside
the empty branch; the `"No errors in"` arm is unreachable. The
"Show 3 warnings" button does appear in the hidden-warnings case. -/
theorem C8_empty_state_label_does_not_distinguish :
    render "main.rs" { initial_state ⟨0, 3⟩ false with diagnostics := [] } =
      RenderedView.empty_state
        { label := "No problems in main.rs", warnings_button := some "Show 3 warnings" } ∧
    render "main.rs" { initial_state ⟨0, 0⟩ false with diagnostics := [] } =
      RenderedView.empty_state
        { label := "No problems in main.rs", warnings_button := none } ∧
    render "main.rs" { initial_state ⟨0, 0⟩ true with diagnostics := [] } =
      RenderedView.empty_state
        { label := "No problems in main.rs", warnings_button := none } := by
  exact ⟨rfl, rfl, rfl⟩

/-- C2 is false on the code: a second notification arriving while N1's
refresh timer is pending does NOT replace the pending task.
`update_stale_excerpts` early-returns when `update_excerpts_task` is
already `Some` (line 447), so after N2 the pending task is still the one
N1 scheduled (id 0) and no new task was spawned (`next_task_id` is still
1); when the timer fires, the refresh that executes is exactly N1's task —
the claim says N1's scheduled refresh never executes. -/
theorem C2_counterexample_first_wins :
    after_n1.update_excerpts_task = some 0 ∧
    after_n2.update_excerpts_task = some 0 ∧
    after_n2.next_task_id = 1 ∧
    (fire_refresh true [] [] after_n2).executed_refreshes = [0] := by
  decide

/-- C2 as amended: for two notifications N1 then N2 for the view's path
arriving unfocused before the refresh delay elapses, the code is
first-notification-wins: N1 schedules the refresh task, N2 leaves that
pending task in place and schedules no new one, and when the timer fires
exactly one full excerpt refresh executes — N1's task — reading buffer
state as of execution time (`fire_refresh`'s arguments), hence state that
reflects N2. -/
theorem C2_amended_first_notification_wins (s : EditorState)
    (h : s.update_excerpts_task = none) :
    (handle_diagnostics_updated true false s).update_excerpts_task =
      some s.next_task_id ∧
    (handle_diagnostics_updated true false
        (handle_diagnostics_updated true false s)).update_excerpts_task =
      some s.next_task_id ∧
    (handle_diagnostics_updated true false
        (handle_diagnostics_updated true false s)).next_task_id =
      s.next_task_id + 1 ∧
    ∀ new_diagnostics new_blocks,
      (fire_refresh true new_diagnostics new_blocks
          (handle_diagnostics_updated true false
            (handle_diagnostics_updated true false s))).executed_refreshes =
        s.executed_refreshes ++ [s.next_task_id] := by
  refine ⟨?_, ?_, ?_, ?_⟩ <;>
    simp [handle_diagnostics_updated, update_stale_excerpts, fire_refresh, h]

theorem C2_amended_witness :
    (initial_state ⟨1, 0⟩ true).update_excerpts_task = none ∧
    ((handle_diagnostics_updated true false (initial_state ⟨1, 0⟩ true)).update_excerpts_task =
      some 0 ∧
    (handle_diagnostics_updated true false
        (handle_diagnostics_updated true false (initial_state ⟨1, 0⟩ true))).update_excerpts_task =
      some 0 ∧
    (handle_diagnostics_updated true false
        (handle_diagnostics_updated true false (initial_state ⟨1, 0⟩ true))).next_task_id = 1 ∧
    ∀ new_diagnostics new_blocks,
      (fire_refresh true new_diagnostics new_blocks
          (handle_diagnostics_updated true false
            (handle_diagnostics_updated true false (initial_state ⟨1, 0⟩ true)))).executed_refreshes =
        [0]) :=
  ⟨rfl, C2_amended_first_notification_wins (initial_state ⟨1, 0⟩ true) rfl⟩

/-- C3: when a diagnostics-updated notification for the view's path
arrives while the view or its embedded editor holds focus, the summary
update is still scheduled (a fresh `diagnostic_summary_task`, which on
firing stores the project's summary), but no excerpt refresh task is
started; the deferred full recomputation starts when focus is lost
(`focus_out` with neither handle focused runs `update_all_excerpts`). -/
theorem C3_focus_defers_excerpt_refresh (s : EditorState)
    (h : s.update_excerpts_task = none) :
    (handle_diagnostics_updated true true s).summary_task =
      some s.next_summary_task_id ∧
    (∀ project_summary,
      (fire_summary project_summary (handle_diagnostics_updated true true s)).summary =
        project_summary) ∧
    (handle_diagnostics_updated true true s).update_excerpts_task = none ∧
    (handle_diagnostics_updated true true s).next_task_id = s.next_task_id ∧
    (focus_out false false (handle_diagnostics_updated true true s)).update_excerpts_task =
      some s.next_task_id := by
  refine ⟨?_, ?_, ?_, ?_, ?_⟩ <;>
    simp [handle_diagnostics_updated, fire_summary, update_diagnostic_summary,
      focus_out, update_all_excerpts, update_stale_excerpts, h]

theorem C3_witness :
    (initial_state ⟨1, 0⟩ true).update_excerpts_task = none ∧
    ((handle_diagnostics_updated true true (initial_state ⟨1, 0⟩ true)).summary_task =
      some 0 ∧
    (∀ project_summary,
      (fire_summary project_summary
          (handle_diagnostics_updated true true (initial_state ⟨1, 0⟩ true))).summary =
        project_summary) ∧
    (handle_diagnostics_updated true true (initial_state ⟨1, 0⟩ true)).update_excerpts_task =
      none ∧
    (handle_diagnostics_updated true true (initial_state ⟨1, 0⟩ true)).next_task_id = 0 ∧
    (focus_out false false
        (handle_diagnostics_updated true true (initial_state ⟨1, 0⟩ true))).update_excerpts_task =
      some 0) :=
  ⟨rfl, C3_focus_defers_excerpt_refresh (initial_state ⟨1, 0⟩ true) rfl⟩

/-- C5 is wrong about recovery: when opening the buffer fails during a
scheduled excerpt refresh, the refresh is indeed silently abandoned and
the previously displayed state (blocks, stored diagnostics) is retained,
but `update_excerpts_task` still holds the finished task, so the next
diagnostics-updated event does NOT start a refresh: `update_stale_excerpts`
early-returns forever after (no path in this file clears the handle after
a failed open). The code contradicts the field's own documentation (lines
107-109: the field tracks whether a task is "already running ... to avoid
firing multiple tasks") and the spec's recovery intent. -/
theorem C5_open_failure_blocks_future_refreshes :
    after_open_failure.displayed_blocks = [] ∧
    after_open_failure.diagnostics = [] ∧
    after_open_failure.executed_refreshes = [] ∧
    after_open_failure.update_excerpts_task = some 0 ∧
    (handle_diagnostics_updated true false after_open_failure).update_excerpts_task =
      some 0 ∧
    (handle_diagnostics_updated true false after_open_failure).next_task_id = 1 ∧
    (focus_out false false after_open_failure).update_excerpts_task = some 0 ∧
    (focus_out false false after_open_failure).next_task_id = 1 := by
  decide

theorem run_completions_pending (completions : List (ProjectPath × Bool))
    (m : FetchModel) :
    (run_completions completions m).pending_ops =
      erase_all (completions.map Prod.fst) m.pending_ops := by
  induction completions generalizing m with
  | nil => rfl
  | cons c cs ih => simpa [run_completions, erase_all] using ih (complete_flycheck c.1 c.2 m)

theorem perm_erase_all {l q pending : List ProjectPath}
    (h : (l ++ q).Perm pending) : (erase_all l pending).Perm q := by
  induction l generalizing pending with
  | nil => simpa [erase_all] using h.symm
  | cons x l' ih =>
    rcases List.cons_perm_iff_perm_erase.mp h with ⟨_, hrest⟩
    simpa [erase_all] using ih hrest

theorem complete_flycheck_invariant (source : ProjectPath) (ok : Bool)
    (m : FetchModel) (h : fetch_invariant m) :
    fetch_invariant (complete_flycheck source ok m) := by
  unfold fetch_invariant complete_flycheck at *
  by_cases hr : (m.pending_ops.erase source).isEmpty
  · simp [hr]
  · have hp : m.pending_ops.isEmpty = false := by
      cases hm : m.pending_ops with
      | nil => rw [hm] at hr; simp [List.erase] at hr
      | cons a l => simp
    simp [hr, hp] at *
    exact h

theorem run_completions_invariant (completions : List (ProjectPath × Bool))
    (m : FetchModel) (h : fetch_invariant m) :
    fetch_invariant (run_completions completions m) := by
  induction completions generalizing m with
  | nil => exact h
  | cons c cs ih =>
    exact ih (complete_flycheck c.1 c.2 m) (complete_flycheck_invariant c.1 c.2 m h)

/-- C4: calling `fetch_cargo_diagnostics` with an empty source set spawns
no operation and leaves `fetch_task` unset; with a non-empty source set it
launches one asynchronous `run_flycheck` operation per source and stores a
running-fetch handle, and for every completion order (any permutation of
the sources) with arbitrary per-source success or failure, the handle is
still set after any proper prefix of the completions and is cleared
exactly when the last operation completes. -/
theorem C4_fetch_coordinator (sources : List ProjectPath)
    (prev prev2 : CargoDiagnosticsFetchState)
    (completions : List (ProjectPath × Bool))
    (hne : sources ≠ [])
    (hperm : (completions.map Prod.fst).Perm sources) :
    (fetch_cargo_diagnostics [] prev2).state.fetch_task = none ∧
    (fetch_cargo_diagnostics [] prev2).pending_ops = [] ∧
    (fetch_cargo_diagnostics sources prev).pending_ops = sources ∧
    (fetch_cargo_diagnostics sources prev).state.fetch_task = some 0 ∧
    (run_completions completions (fetch_cargo_diagnostics sources prev)).state.fetch_task =
      none ∧
    ∀ p q, completions = p ++ q → q ≠ [] →
      (run_completions p (fetch_cargo_diagnostics sources prev)).state.fetch_task =
        some 0 := by
  have hs : sources.isEmpty = false := by
    cases sources with
    | nil => exact absurd rfl hne
    | cons a l => simp
  have hfetch : fetch_cargo_diagnostics sources prev =
      FetchModel.mk
        { prev with
          cancel_task := none
          fetch_task := some 0
          diagnostic_sources := sources }
        sources := by
    simp [fetch_cargo_diagnostics, hs]
  have hinv0 : fetch_invariant (fetch_cargo_diagnostics sources prev) := by
    rw [hfetch]
    unfold fetch_invariant
    simp [hs]
  refine ⟨by simp [fetch_cargo_diagnostics], by simp [fetch_cargo_diagnostics],
    by rw [hfetch], by rw [hfetch], ?_, ?_⟩
  · have hinv := run_completions_invariant completions _ hinv0
    have hpend : (run_completions completions (fetch_cargo_diagnostics sources prev)).pending_ops =
        erase_all (completions.map Prod.fst) sources := by
      rw [run_completions_pending, hfetch]
    have hq : (erase_all (completions.map Prod.fst) sources).Perm ([] : List ProjectPath) := by
      exact perm_erase_all (by simpa using hperm)
    have hnil : erase_all (completions.map Prod.fst) sources = [] :=
      List.perm_nil.mp hq
    unfold fetch_invariant at hinv
    rw [hpend, hnil] at hinv
    simpa using hinv
  · intro p q hpq hq
    have hinv := run_completions_invariant p _ hinv0
    have hpend : (run_completions p (fetch_cargo_diagnostics sources prev)).pending_ops =
        erase_all (p.map Prod.fst) sources := by
      rw [run_completions_pending, hfetch]
    have hqperm : (erase_all (p.map Prod.fst) sources).Perm (q.map Prod.fst) := by
      refine perm_erase_all ?_
      rw [← List.map_append, ← hpq]
      exact hperm
    have hqne : erase_all (p.map Prod.fst) sources ≠ [] := by
      intro hcontra
      rw [hcontra] at hqperm
      have := List.Perm.symm hqperm
      rcases q with _ | ⟨c, q'⟩
      · exact hq rfl
      · simp at this
    unfold fetch_invariant at hinv
    rw [hpend] at hinv
    cases he : erase_all (p.map Prod.fst) sources with
    | nil => exact absurd he hqne
    | cons a l =>
      rw [he] at hinv
      simpa using hinv

theorem C4_witness :
    ([⟨"a.rs"⟩, ⟨"b.rs"⟩] : List ProjectPath) ≠ [] ∧
    (([(⟨"b.rs"⟩, false), (⟨"a.rs"⟩, true)] : List (ProjectPath × Bool)).map
      Prod.fst).Perm [⟨"a.rs"⟩, ⟨"b.rs"⟩] ∧
    ((fetch_cargo_diagnostics [] {}).state.fetch_task = none ∧
    (fetch_cargo_diagnostics [] {}).pending_ops = [] ∧
    (fetch_cargo_diagnostics [⟨"a.rs"⟩, ⟨"b.rs"⟩] {}).pending_ops =
      [⟨"a.rs"⟩, ⟨"b.rs"⟩] ∧
    (fetch_cargo_diagnostics [⟨"a.rs"⟩, ⟨"b.rs"⟩] {}).state.fetch_task = some 0 ∧
    (run_completions [(⟨"b.rs"⟩, false), (⟨"a.rs"⟩, true)]
        (fetch_cargo_diagnostics [⟨"a.rs"⟩, ⟨"b.rs"⟩] {})).state.fetch_task = none ∧
    ∀ p q, ([(⟨"b.rs"⟩, false), (⟨"a.rs"⟩, true)] : List (ProjectPath × Bool)) = p ++ q →
      q ≠ [] →
      (run_completions p
          (fetch_cargo_diagnostics [⟨"a.rs"⟩, ⟨"b.rs"⟩] {})).state.fetch_task = some 0) :=
  ⟨by decide, by decide,
    C4_fetch_coordinator [⟨"a.rs"⟩, ⟨"b.rs"⟩] {} {}
      [(⟨"b.rs"⟩, false), (⟨"a.rs"⟩, true)] (by decide) (by decide)⟩

/-- C6: during excerpt recomputation a group is dropped exactly when the
minimum severity among its entries exceeds (is numerically greater, i.e.
less severe than) the active threshold, or the group has no severity at
all; equivalently it is kept iff its minimum severity exists and is at
most the threshold. With group minimum severities [Error, Warning, Error]
and the errors-only threshold, exactly the two error groups are
retained. -/
theorem C6_group_filter (max_severity : Nat) (group : List (DiagnosticEntry Point)) :
    (skip_group max_severity group = false ↔
      ∃ m, (group.map fun d => d.diagnostic.severity).min? = some m ∧
        m ≤ max_severity) ∧
    retained_groups (into_lsp (max_diagnostics_severity false))
        [error_group_one, warning_group, error_group_two] =
      [error_group_one, error_group_two] := by
  constructor
  · unfold skip_group
    cases hm : (group.map fun d => d.diagnostic.severity).min? with
    | none => simp
    | some m => simp [Nat.not_lt]
  · decide

theorem then_eq_lt (x y : Ordering) :
    x.then y = Ordering.lt ↔ x = Ordering.lt ∨ (x = Ordering.eq ∧ y = Ordering.lt) := by
  cases x <;> simp [Ordering.then]

theorem then_eq_eq (x y : Ordering) :
    x.then y = Ordering.eq ↔ x = Ordering.eq ∧ y = Ordering.eq := by
  cases x <;> simp [Ordering.then]

theorem then_gt_ne_eq (x : Ordering) : x.then Ordering.gt ≠ Ordering.eq := by
  cases x <;> simp [Ordering.then]

theorem point_cmp_lt_iff (a b : Point) :
    point_cmp a b = Ordering.lt ↔ point_lt a b := by
  simp [point_cmp, point_lt, then_eq_lt, Nat.compare_eq_lt, Nat.compare_eq_eq]

theorem point_cmp_eq_iff (a b : Point) :
    point_cmp a b = Ordering.eq ↔ a = b := by
  rcases a with ⟨ar, ac⟩
  rcases b with ⟨br, bc⟩
  simp [point_cmp, then_eq_eq, Nat.compare_eq_eq, Point.mk.injEq]

theorem block_probe_cmp_lt_iff (a b : DiagnosticBlock) :
    block_probe_cmp a b = Ordering.lt ↔ range_lt a.initial_range b.initial_range := by
  simp [block_probe_cmp, range_lt, then_eq_lt, then_eq_eq,
    point_cmp_lt_iff, point_cmp_eq_iff]

theorem block_probe_cmp_ne_eq (a b : DiagnosticBlock) :
    block_probe_cmp a b ≠ Ordering.eq := by
  unfold block_probe_cmp
  exact then_gt_ne_eq _

theorem excerpt_probe_cmp_lt_iff (a b : ExcerptRange) :
    excerpt_probe_cmp a b = Ordering.lt ↔ excerpt_lt a b := by
  rcases a with ⟨⟨cs1, ce1⟩, ⟨ps1, pe1⟩⟩
  rcases b with ⟨⟨cs2, ce2⟩, ⟨ps2, pe2⟩⟩
  simp [excerpt_probe_cmp, excerpt_lt, range_lt, then_eq_lt, then_eq_eq,
    point_cmp_lt_iff, point_cmp_eq_iff, Range.mk.injEq]
  tauto

theorem excerpt_probe_cmp_ne_eq (a b : ExcerptRange) :
    excerpt_probe_cmp a b ≠ Ordering.eq := by
  unfold excerpt_probe_cmp
  exact then_gt_ne_eq _

theorem range_lt_trans {a b c : Range Point} :
    range_lt a b → range_lt b c → range_lt a c := by
  rcases a with ⟨⟨a1, a2⟩, ⟨a3, a4⟩⟩
  rcases b with ⟨⟨b1, b2⟩, ⟨b3, b4⟩⟩
  rcases c with ⟨⟨c1, c2⟩, ⟨c3, c4⟩⟩
  simp [range_lt, point_lt, Point.mk.injEq]
  omega

theorem range_lt_irrefl (a : Range Point) : ¬ range_lt a a := by
  rcases a with ⟨⟨a1, a2⟩, ⟨a3, a4⟩⟩
  simp [range_lt, point_lt]

theorem range_trichotomy (a b : Range Point) :
    range_lt a b ∨ a = b ∨ range_lt b a := by
  rcases a with ⟨⟨a1, a2⟩, ⟨a3, a4⟩⟩
  rcases b with ⟨⟨b1, b2⟩, ⟨b3, b4⟩⟩
  simp [range_lt, point_lt, Point.mk.injEq, Range.mk.injEq]
  omega

theorem excerpt_lt_trans {a b c : ExcerptRange} :
    excerpt_lt a b → excerpt_lt b c → excerpt_lt a c := by
  intro h1 h2
  rcases h1 with h1 | ⟨e1, h1⟩
  · rcases h2 with h2 | ⟨e2, h2⟩
    · exact Or.inl (range_lt_trans h1 h2)
    · exact Or.inl (by rw [← e2]; exact h1)
  · rcases h2 with h2 | ⟨e2, h2⟩
    · exact Or.inl (by rw [e1]; exact h2)
    · exact Or.inr ⟨e1.trans e2, range_lt_trans h1 h2⟩

theorem excerpt_lt_irrefl (a : ExcerptRange) : ¬ excerpt_lt a a := by
  intro h
  rcases h with h | ⟨_, h⟩ <;> exact range_lt_irrefl _ h

theorem excerpt_trichotomy (a b : ExcerptRange) :
    excerpt_lt a b ∨ a = b ∨ excerpt_lt b a := by
  rcases range_trichotomy a.context b.context with h | h | h
  · exact Or.inl (Or.inl h)
  · rcases range_trichotomy a.primary b.primary with h2 | h2 | h2
    · exact Or.inl (Or.inr ⟨h, h2⟩)
    · refine Or.inr (Or.inl ?_)
      rcases a with ⟨ac, ap⟩
      rcases b with ⟨bc, bp⟩
      simp only [ExcerptRange.mk.injEq]
      exact ⟨h, h2⟩
    · exact Or.inr (Or.inr (Or.inr ⟨h.symm, h2⟩))
  · exact Or.inr (Or.inr (Or.inl h))

theorem binary_search_go_partition (f : α → Ordering) (l : List α) (d : α) (pp : Nat)
    (hlt : ∀ i, i < l.length → (f (l.getD i d) = Ordering.lt ↔ i < pp))
    (hne : ∀ i, i < l.length → f (l.getD i d) ≠ Ordering.eq) :
    ∀ fuel left right, right - left ≤ fuel → right ≤ l.length →
      left ≤ pp → pp ≤ right →
      binary_search_go f l d fuel left right = Except.error pp := by
  intro fuel
  induction fuel with
  | zero =>
    intro left right hn hr hl hp
    have hppl : pp = left := by omega
    simp [binary_search_go, hppl]
  | succ n ih =>
    intro left right hn hr hl hp
    by_cases hlr : left < right
    · have hmr : left + (right - left) / 2 < right := by omega
      have hmlen : left + (right - left) / 2 < l.length := by omega
      cases hf : f (l.getD (left + (right - left) / 2) d) with
      | lt =>
        have hmp : left + (right - left) / 2 < pp := (hlt _ hmlen).mp hf
        have hrec := ih (left + (right - left) / 2 + 1) right (by omega) hr (by omega) hp
        simp only [binary_search_go]
        rw [if_pos hlr, hf]
        exact hrec
      | eq => exact absurd hf (hne _ hmlen)
      | gt =>
        have hmp : pp ≤ left + (right - left) / 2 := by
          by_contra hc
          push_neg at hc
          have hx := (hlt _ hmlen).mpr hc
          rw [hf] at hx
          simp at hx
        have hrec := ih left (left + (right - left) / 2) (by omega) (by omega) hl hmp
        simp only [binary_search_go]
        rw [if_pos hlr, hf]
        exact hrec
    · have hppl : pp = left := by omega
      simp only [binary_search_go]
      rw [if_neg hlr, hppl]

theorem takeWhile_getD_true (p : α → Bool) (l : List α) (d : α) :
    ∀ i, i < (l.takeWhile p).length → p (l.getD i d) = true := by
  induction l with
  | nil => intro i h; simp at h
  | cons a t ih =>
    intro i h
    cases hp : p a with
    | false => simp [List.takeWhile_cons, hp] at h
    | true =>
      simp [List.takeWhile_cons, hp] at h
      cases i with
      | zero => simpa [List.getD_cons_zero] using hp
      | succ j =>
        rw [List.getD_cons_succ]
        exact ih j (by omega)

theorem takeWhile_length_getD_false (p : α → Bool) (l : List α) (d : α) :
    (l.takeWhile p).length < l.length →
      p (l.getD (l.takeWhile p).length d) = false := by
  induction l with
  | nil => intro h; simp at h
  | cons a t ih =>
    intro h
    cases hp : p a with
    | false => simp [List.takeWhile_cons, hp]
    | true =>
      simp only [List.takeWhile_cons, hp, if_true, List.length_cons] at h ⊢
      rw [List.getD_cons_succ]
      exact ih (by omega)

theorem insert_at_takeWhile (p : α → Bool) (l : List α) (x : α) :
    insert_at l (l.takeWhile p).length x = l.takeWhile p ++ x :: l.dropWhile p := by
  induction l with
  | nil => rfl
  | cons a t ih =>
    cases hp : p a with
    | false => simp [List.takeWhile_cons, List.dropWhile_cons, hp, insert_at]
    | true => simp [List.takeWhile_cons, List.dropWhile_cons, hp, insert_at, ih]

theorem search_index_partition (c : α → α → Ordering) (x : α) (l : List α) (d : α)
    (hne : ∀ a, c a x ≠ Ordering.eq)
    (hdc : ∀ i j, i ≤ j → j < l.length →
      c (l.getD j d) x = Ordering.lt → c (l.getD i d) x = Ordering.lt) :
    search_index (fun probe => c probe x) l d =
      (l.takeWhile fun a => c a x == Ordering.lt).length := by
  have hpple : (l.takeWhile fun a => c a x == Ordering.lt).length ≤ l.length :=
    (List.takeWhile_sublist _).length_le
  have hlt : ∀ i, i < l.length →
      ((fun probe => c probe x) (l.getD i d) = Ordering.lt ↔
        i < (l.takeWhile fun a => c a x == Ordering.lt).length) := by
    intro i hi
    constructor
    · intro hlt'
      by_contra hc
      push_neg at hc
      have hppl : (l.takeWhile fun a => c a x == Ordering.lt).length < l.length :=
        lt_of_le_of_lt hc hi
      have hfalse := takeWhile_length_getD_false (fun a => c a x == Ordering.lt) l d hppl
      have hppq := hdc _ i hc hi hlt'
      simp only [hppq] at hfalse
      exact absurd hfalse (by decide)
    · intro hi'
      have h2 := takeWhile_getD_true (fun a => c a x == Ordering.lt) l d i hi'
      show c (l.getD i d) x = Ordering.lt
      cases hcc : c (l.getD i d) x with
      | lt => rfl
      | eq =>
        simp only [hcc] at h2
        exact absurd h2 (by decide)
      | gt =>
        simp only [hcc] at h2
        exact absurd h2 (by decide)
  have hne' : ∀ i, i < l.length →
      (fun probe => c probe x) (l.getD i d) ≠ Ordering.eq :=
    fun i _ => hne _
  have hmain := binary_search_go_partition (fun probe => c probe x) l d
    (l.takeWhile fun a => c a x == Ordering.lt).length hlt hne'
    l.length 0 l.length (by omega) le_rfl (Nat.zero_le _) hpple
  simp [search_index, binary_search_by, hmain]

theorem dropWhile_not_lt {α κ : Type}
    (c : α → α → Ordering) (key : α → κ) (slt : κ → κ → Prop)
    (hlt_iff : ∀ a b, c a b = Ordering.lt ↔ slt (key a) (key b))
    (htrans : ∀ {u v w : κ}, slt u v → slt v w → slt u w)
    (htricho : ∀ u v : κ, slt u v ∨ u = v ∨ slt v u)
    (x : α) :
    ∀ l : List α, l.Pairwise (fun a b => ¬ slt (key b) (key a)) →
      ∀ a ∈ l.dropWhile (fun a => c a x == Ordering.lt), ¬ slt (key a) (key x) := by
  intro l
  induction l with
  | nil => intro _ a ha; simp at ha
  | cons h0 t ih =>
    intro hs a ha
    rcases List.pairwise_cons.mp hs with ⟨hh, ht⟩
    cases hp : (c h0 x == Ordering.lt) with
    | true =>
      refine ih ht a ?_
      simpa [List.dropWhile_cons, hp] using ha
    | false =>
      have hh0 : ¬ slt (key h0) (key x) := by
        intro hcon
        have hc0 : c h0 x = Ordering.lt := (hlt_iff _ _).mpr hcon
        simp only [hc0] at hp
        exact absurd hp (by decide)
      simp only [List.dropWhile_cons, hp] at ha
      simp only [Bool.false_eq_true, if_false] at ha
      rcases List.mem_cons.mp ha with rfl | hat
      · exact hh0
      · intro hcon
        have hha : ¬ slt (key a) (key h0) := hh a hat
        rcases htricho (key h0) (key a) with h | h | h
        · exact hh0 (htrans h hcon)
        · exact hh0 (by rw [h]; exact hcon)
        · exact hha h

theorem insert_sorted_spec {α κ : Type} [Inhabited α]
    (c : α → α → Ordering) (key : α → κ) (slt : κ → κ → Prop)
    (hlt_iff : ∀ a b, c a b = Ordering.lt ↔ slt (key a) (key b))
    (hne : ∀ a b, c a b ≠ Ordering.eq)
    (htrans : ∀ {u v w : κ}, slt u v → slt v w → slt u w)
    (htricho : ∀ u v : κ, slt u v ∨ u = v ∨ slt v u)
    (hirr : ∀ u : κ, ¬ slt u u)
    (l : List α) (x : α) (d : α)
    (hsorted : l.Pairwise fun a b => ¬ slt (key b) (key a)) :
    insert_at l (search_index (fun probe => c probe x) l d) x =
      l.takeWhile (fun a => c a x == Ordering.lt) ++ x ::
        l.dropWhile (fun a => c a x == Ordering.lt) ∧
    (∀ a ∈ l.dropWhile (fun a => c a x == Ordering.lt), ¬ slt (key a) (key x)) ∧
    (insert_at l (search_index (fun probe => c probe x) l d) x).Pairwise
      (fun a b => ¬ slt (key b) (key a)) := by
  have hdc : ∀ i j, i ≤ j → j < l.length →
      c (l.getD j d) x = Ordering.lt → c (l.getD i d) x = Ordering.lt := by
    intro i j hij hj hcj
    rcases Nat.eq_or_lt_of_le hij with rfl | hij'
    · exact hcj
    · have hi : i < l.length := lt_trans hij' hj
      have hpair : ¬ slt (key (l.getD j d)) (key (l.getD i d)) := by
        have hg := List.pairwise_iff_get.mp hsorted ⟨i, hi⟩ ⟨j, hj⟩ hij'
        rw [List.getD_eq_get l d hi, List.getD_eq_get l d hj]
        exact hg
      have hj' : slt (key (l.getD j d)) (key x) := (hlt_iff _ _).mp hcj
      rcases htricho (key (l.getD i d)) (key (l.getD j d)) with h | h | h
      · exact (hlt_iff _ _).mpr (htrans h hj')
      · exact (hlt_iff _ _).mpr (by rw [h]; exact hj')
      · exact absurd h hpair
  have hsi : search_index (fun probe => c probe x) l d =
      (l.takeWhile fun a => c a x == Ordering.lt).length :=
    search_index_partition c x l d (fun a => hne a x) hdc
  have hdecomp : insert_at l (search_index (fun probe => c probe x) l d) x =
      l.takeWhile (fun a => c a x == Ordering.lt) ++ x ::
        l.dropWhile (fun a => c a x == Ordering.lt) := by
    rw [hsi]
    exact insert_at_takeWhile _ l x
  have hdrop : ∀ a ∈ l.dropWhile (fun a => c a x == Ordering.lt),
      ¬ slt (key a) (key x) :=
    dropWhile_not_lt c key slt hlt_iff (fun h1 h2 => htrans h1 h2) htricho x l hsorted
  refine ⟨hdecomp, hdrop, ?_⟩
  rw [hdecomp, List.pairwise_append]
  refine ⟨List.Pairwise.sublist (List.takeWhile_sublist _) hsorted, ?_, ?_⟩
  · rw [List.pairwise_cons]
    exact ⟨fun y hy => hdrop y hy,
      List.Pairwise.sublist (List.dropWhile_sublist _) hsorted⟩
  · intro a ha y hy
    have hax : slt (key a) (key x) := by
      have hmem := List.mem_takeWhile_imp ha
      simp only at hmem
      cases hcc : c a x with
      | lt => exact (hlt_iff _ _).mp hcc
      | eq =>
        simp only [hcc] at hmem
        exact absurd hmem (by decide)
      | gt =>
        simp only [hcc] at hmem
        exact absurd hmem (by decide)
    rcases List.mem_cons.mp hy with rfl | hyd
    · intro hcon
      exact hirr _ (htrans hax hcon)
    · have hl : l.takeWhile (fun a => c a x == Ordering.lt) ++
          l.dropWhile (fun a => c a x == Ordering.lt) = l :=
        List.takeWhile_append_dropWhile _ l
      have hs2 : (l.takeWhile (fun a => c a x == Ordering.lt) ++
          l.dropWhile (fun a => c a x == Ordering.lt)).Pairwise
            (fun a b => ¬ slt (key b) (key a)) := by
        rw [hl]
        exact hsorted
      exact (List.pairwise_append.mp hs2).2.2 a ha y hyd

/-- C7's tie-break consequence is false on the code: because the
comparators return `Ordering::Greater` on a key tie, the binary search
converges on the FIRST element with an equal key and `Vec::insert` places
the new element before it, so among exact duplicates the most recently
inserted element comes first. Inserting `block_one` and then `block_two`
(same range, different content) yields `[block_two, block_one]`, not the
first-seen order `[block_one, block_two]` the claim asserts. -/
theorem C7_counterexample_duplicates_reversed :
    block_one ≠ block_two ∧
    insert_block (insert_block [] block_one) block_two = [block_two, block_one] := by
  decide

/-- C7 as amended: diagnostic blocks are kept totally ordered by
(initial_range.start, initial_range.end) and excerpt ranges by
(context.start, context.end, primary.start, primary.end), with ties
resolved by treating the probe as greater; this places each newly
inserted element at the start of its run of equal keys — before every
existing element whose key does not compare strictly below the new one —
so among exact duplicates the final order is most-recently-inserted first
(the reverse of first-seen order), while the sequences stay sorted. -/
theorem C7_amended_ordered_insertion
    (blocks : List DiagnosticBlock) (b : DiagnosticBlock)
    (ranges : List ExcerptRange) (e : ExcerptRange)
    (hb : blocks.Pairwise block_le) (he : ranges.Pairwise excerpt_le) :
    (insert_block blocks b =
      blocks.takeWhile (fun a => block_probe_cmp a b == Ordering.lt) ++ b ::
        blocks.dropWhile (fun a => block_probe_cmp a b == Ordering.lt) ∧
    (∀ a ∈ blocks.dropWhile (fun a => block_probe_cmp a b == Ordering.lt),
      ¬ range_lt a.initial_range b.initial_range) ∧
    (insert_block blocks b).Pairwise block_le) ∧
    (insert_excerpt ranges e =
      ranges.takeWhile (fun a => excerpt_probe_cmp a e == Ordering.lt) ++ e ::
        ranges.dropWhile (fun a => excerpt_probe_cmp a e == Ordering.lt) ∧
    (∀ a ∈ ranges.dropWhile (fun a => excerpt_probe_cmp a e == Ordering.lt),
      ¬ excerpt_lt a e) ∧
    (insert_excerpt ranges e).Pairwise excerpt_le) := by
  constructor
  · have hspec := insert_sorted_spec block_probe_cmp
      (fun blk => blk.initial_range) range_lt
      block_probe_cmp_lt_iff block_probe_cmp_ne_eq
      (fun h1 h2 => range_lt_trans h1 h2) range_trichotomy range_lt_irrefl
      blocks b default hb
    exact hspec
  · have hspec := insert_sorted_spec excerpt_probe_cmp
      (fun er => er) excerpt_lt
      excerpt_probe_cmp_lt_iff excerpt_probe_cmp_ne_eq
      (fun h1 h2 => excerpt_lt_trans h1 h2) excerpt_trichotomy excerpt_lt_irrefl
      ranges e default he
    exact hspec

theorem C7_amended_witness :
    ([block_one] : List DiagnosticBlock).Pairwise block_le ∧
    ([excerpt_one] : List ExcerptRange).Pairwise excerpt_le ∧
    ((insert_block [block_one] block_two =
      [block_one].takeWhile (fun a => block_probe_cmp a block_two == Ordering.lt) ++
        block_two ::
        [block_one].dropWhile (fun a => block_probe_cmp a block_two == Ordering.lt) ∧
    (∀ a ∈ [block_one].dropWhile
        (fun a => block_probe_cmp a block_two == Ordering.lt),
      ¬ range_lt a.initial_range block_two.initial_range) ∧
    (insert_block [block_one] block_two).Pairwise block_le) ∧
    (insert_excerpt [excerpt_one] excerpt_two =
      [excerpt_one].takeWhile
          (fun a => excerpt_probe_cmp a excerpt_two == Ordering.lt) ++
        excerpt_two ::
        [excerpt_one].dropWhile
          (fun a => excerpt_probe_cmp a excerpt_two == Ordering.lt) ∧
    (∀ a ∈ [excerpt_one].dropWhile
        (fun a => excerpt_probe_cmp a excerpt_two == Ordering.lt),
      ¬ excerpt_lt a excerpt_two) ∧
    (insert_excerpt [excerpt_one] excerpt_two).Pairwise excerpt_le)) :=
  ⟨List.pairwise_singleton _ _, List.pairwise_singleton _ _,
    C7_amended_ordered_insertion [block_one] block_two [excerpt_one] excerpt_two
      (List.pairwise_singleton _ _) (List.pairwise_singleton _ _)⟩

end BufferDiagnostics

